import Mathlib

/-!
Verification of the feature-encoding pipeline of the ClientTelecom
churn-prediction repository.

The development shallowly embeds the pandas-based data transformations of
`src/features/build_features.py`, `src/data/preprocess.py`,
`scripts/run_pipeline.py` and `src/app/main.py` into Lean.

A pandas Series / DataFrame column is modelled as a `Column`: a name, a
dtype tag and a list of cells.  A DataFrame is an ordered list of columns.
Missing values (NaN) are the cell `Cell.na`.  Machine floats are modelled
as rationals (no claim depends on float rounding).
-/

/-- Dtype tags for the pandas dtypes that occur in the pipeline:
`object` (strings), `int64`, `float64`, the nullable extension integer
dtype `Int64` (written `int64N` here) and `bool`. -/
inductive Dtype where
  | object : Dtype
  | int64 : Dtype
  | float64 : Dtype
  | int64N : Dtype
  | boolT : Dtype
deriving DecidableEq, Repr

/-- A cell of a pandas column: a string, an integer, a float (modelled as a
rational), a boolean, or the missing value NaN. -/
inductive Cell where
  | s (v : String) : Cell
  | i (v : Int) : Cell
  | f (v : Rat) : Cell
  | b (v : Bool) : Cell
  | na : Cell
deriving DecidableEq, Repr

/-- A named pandas column together with its dtype. -/
structure Column where
  name : String
  dtype : Dtype
  cells : List Cell
deriving DecidableEq, Repr

/-- A DataFrame is an ordered list of columns. -/
abbrev DataFrame := List Column

/-- Python `str(x)` as applied by pandas `astype(str)`.  Crucially,
`astype(str)` turns the missing value NaN into the literal string "nan". -/
def cellToStr : Cell → String
  | .s v => v
  | .i v => toString v
  | .f v => toString v
  | .b true => "True"
  | .b false => "False"
  | .na => "nan"

/-- First-seen-order deduplication, the behaviour of `pandas.unique`. -/
def dedupBy {α : Type} [DecidableEq α] : List α → List α
  | [] => []
  | a :: as => a :: (dedupBy as).filter (fun x => x ≠ a)

/-- Python set equality of the two value lists (`set(vals) == {...}`). -/
def sameSet (u v : List String) : Bool :=
  decide ((∀ x ∈ u, x ∈ v) ∧ (∀ x ∈ v, x ∈ u))

/-- Code-point lexicographic comparison of character lists, the order
Python uses to compare and sort strings. -/
def lexLe : List Char → List Char → Bool
  | [], _ => true
  | _ :: _, [] => false
  | c :: cs, d :: ds =>
    if c.toNat = d.toNat then lexLe cs ds else decide (c.toNat < d.toNat)

/-- Lexicographic `a <= b` on strings, by code points. -/
def strLeB (a b : String) : Bool := lexLe a.data b.data

/-- Insert a string into a (sorted) list, keeping lexicographic order. -/
def insertStr (s : String) : List String → List String
  | [] => [s]
  | t :: ts => if strLeB s t then s :: t :: ts else t :: insertStr s ts

/-- Python `sorted` on strings: lexicographically ascending. -/
def sortStrs (l : List String) : List String :=
  l.foldr insertStr []

/-- `list(pd.Series(s.dropna().unique()).astype(str))` from
`_map_binary_series` (build_features.py:16): the distinct non-missing
values of the series, in first-seen order, converted to strings. -/
def binVals (cells : List Cell) : List String :=
  (dedupBy (cells.filter (fun x => x ≠ Cell.na))).map cellToStr

/-- `s.map({k0: 0, k1: 1})` followed by `astype("Int64")`: map by cell
value; unmapped values (including NaN) become the nullable NA. -/
def valueMap2 (k0 k1 : Cell) (x : Cell) : Cell :=
  if x = k0 then .i 0 else if x = k1 then .i 1 else .na

/-- `s.astype(str).map({lo: 0, hi: 1})` followed by `astype("Int64")`:
stringify the cell, then map by string value. -/
def strMap2 (lo hi : String) (x : Cell) : Cell :=
  if cellToStr x = lo then .i 0 else if cellToStr x = hi then .i 1 else .na

/-- `_map_binary_series` (build_features.py:4-49), on a series given as its
cells and dtype.  The three deterministic mappings, in source order:
Yes/No by value, Male/Female by value, otherwise the two distinct values
sorted ascending with the first mapped to 0; non-2-valued series are
returned unchanged. -/
def map_binary_series (cells : List Cell) (dt : Dtype) : List Cell × Dtype :=
  if sameSet (binVals cells) ["Yes", "No"] then
    (cells.map (valueMap2 (.s "No") (.s "Yes")), .int64N)
  else if sameSet (binVals cells) ["Male", "Female"] then
    (cells.map (valueMap2 (.s "Female") (.s "Male")), .int64N)
  else if (binVals cells).length = 2 then
    (cells.map
       (strMap2 ((sortStrs (binVals cells)).headD "")
                ((sortStrs (binVals cells)).getD 1 "")), .int64N)
  else (cells, dt)

/-- `series.dropna().nunique()`: the number of distinct non-missing cells. -/
def nunique (c : Column) : Nat :=
  (dedupBy (c.cells.filter (fun x => x ≠ Cell.na))).length

/-- The smaller of two strings in lexicographic order. -/
def minS (a b : String) : String := if strLeB a b then a else b

/-- The larger of two strings in lexicographic order. -/
def maxS (a b : String) : String := if strLeB a b then b else a

/-- Map the string cell `lo` to 0 and `hi` to 1; any other cell (missing,
unexpected, non-string) stays missing.  This is the spec's wording of one
binary mapping rule. -/
def specMapTo (lo hi : String) (x : Cell) : Cell :=
  match x with
  | .s v => if v = lo then .i 0 else if v = hi then .i 1 else .na
  | _ => .na

/-- The binary-encoding priority rules exactly as the specification states
them, for a column whose two distinct observed values are `a` and `b`:
value set {Yes,No} maps No to 0 and Yes to 1; value set {Male,Female} maps
Female to 0 and Male to 1; otherwise the lexicographically smaller value
maps to 0 and the other to 1. -/
def specPriorityEnc (a b : String) (x : Cell) : Cell :=
  if sameSet [a, b] ["Yes", "No"] then specMapTo "No" "Yes" x
  else if sameSet [a, b] ["Male", "Female"] then specMapTo "Female" "Male" x
  else specMapTo (minS a b) (maxS a b) x

/-! ### Basic lemmas about the helpers -/

theorem mem_dedupBy {α : Type} [DecidableEq α] (l : List α) (x : α) :
    x ∈ dedupBy l ↔ x ∈ l := by
  induction l with
  | nil => simp [dedupBy]
  | cons a as ih =>
    simp only [dedupBy, List.mem_cons, List.mem_filter, ih]
    constructor
    · rintro (rfl | ⟨h, _⟩)
      · exact .inl rfl
      · exact .inr h
    · rintro (rfl | h)
      · exact .inl rfl
      · by_cases hx : x = a
        · exact .inl hx
        · exact .inr ⟨h, by simpa using hx⟩

theorem nodup_dedupBy {α : Type} [DecidableEq α] (l : List α) :
    (dedupBy l).Nodup := by
  induction l with
  | nil => simp [dedupBy]
  | cons a as ih =>
    simp only [dedupBy, List.nodup_cons]
    refine ⟨fun hmem => ?_, ih.filter _⟩
    have := (List.mem_filter.mp hmem).2
    simp at this

theorem sameSet_true_iff (u v : List String) :
    sameSet u v = true ↔ ((∀ x ∈ u, x ∈ v) ∧ (∀ x ∈ v, x ∈ u)) := by
  simp [sameSet]

/-- For distinct `a b` and distinct `x y`, set equality of the pairs means
the pairs agree up to a swap. -/
theorem sameSet_pair_iff (a b x y : String) (hab : a ≠ b) (hxy : x ≠ y) :
    sameSet [a, b] [x, y] = true ↔ ((a = x ∧ b = y) ∨ (a = y ∧ b = x)) := by
  rw [sameSet_true_iff]
  constructor
  · rintro ⟨h1, h2⟩
    have ha := h1 a (by simp)
    have hb := h1 b (by simp)
    simp only [List.mem_cons, List.mem_singleton, List.not_mem_nil, or_false] at ha hb
    rcases ha with rfl | rfl
    · rcases hb with rfl | rfl
      · exact absurd rfl hab
      · exact .inl ⟨rfl, rfl⟩
    · rcases hb with rfl | rfl
      · exact .inr ⟨rfl, rfl⟩
      · exact absurd rfl hab
  · rintro (⟨rfl, rfl⟩ | ⟨rfl, rfl⟩) <;> constructor <;> intro z hz <;>
      simp only [List.mem_cons, List.not_mem_nil, or_false] at hz ⊢ <;> tauto

theorem sameSet_swap (a b : String) (v : List String) :
    sameSet [a, b] v = sameSet [b, a] v := by
  simp only [sameSet, decide_eq_decide]
  constructor <;> rintro ⟨h1, h2⟩ <;>
    refine ⟨fun x hx => ?_, fun x hx => ?_⟩ <;>
    simp only [List.mem_cons, List.not_mem_nil, or_false] at hx ⊢ <;>
    first
      | (rcases hx with rfl | rfl
         · exact h1 x (by simp)
         · exact h1 x (by simp))
      | (have hsw := h2 x hx
         simpa [or_comm] using hsw)

theorem char_toNat_inj {c d : Char} (h : c.toNat = d.toNat) : c = d := by
  have hc := Char.ofNat_toNat c
  have hd := Char.ofNat_toNat d
  rw [← hc, ← hd, h]

theorem lexLe_refl (l : List Char) : lexLe l l = true := by
  induction l with
  | nil => rfl
  | cons c cs ih => simp [lexLe, ih]

theorem lexLe_total (u v : List Char) (h : ¬ lexLe u v = true) :
    lexLe v u = true := by
  induction u generalizing v with
  | nil => exact absurd rfl h
  | cons c cs ih =>
    cases v with
    | nil => rfl
    | cons d ds =>
      unfold lexLe at h ⊢
      by_cases he : c.toNat = d.toNat
      · rw [if_pos he] at h
        rw [if_pos he.symm]
        exact ih ds h
      · rw [if_neg he] at h
        rw [if_neg (fun x => he x.symm)]
        simp only [decide_eq_true_eq] at h ⊢
        omega

theorem lexLe_antisymm (u v : List Char) (h1 : lexLe u v = true)
    (h2 : lexLe v u = true) : u = v := by
  induction u generalizing v with
  | nil =>
    cases v with
    | nil => rfl
    | cons d ds => simp [lexLe] at h2
  | cons c cs ih =>
    cases v with
    | nil => simp [lexLe] at h1
    | cons d ds =>
      unfold lexLe at h1 h2
      by_cases he : c.toNat = d.toNat
      · rw [if_pos he] at h1
        rw [if_pos he.symm] at h2
        rw [char_toNat_inj he, ih ds h1 h2]
      · rw [if_neg he] at h1
        rw [if_neg (fun x => he x.symm)] at h2
        simp only [decide_eq_true_eq] at h1 h2
        omega

theorem lexLe_trans (u v w : List Char) (h1 : lexLe u v = true)
    (h2 : lexLe v w = true) : lexLe u w = true := by
  induction u generalizing v w with
  | nil => rfl
  | cons c cs ih =>
    cases v with
    | nil => simp [lexLe] at h1
    | cons d ds =>
      cases w with
      | nil => simp [lexLe] at h2
      | cons e es =>
        unfold lexLe at h1 h2 ⊢
        by_cases hcd : c.toNat = d.toNat
        · rw [if_pos hcd] at h1
          by_cases hde : d.toNat = e.toNat
          · rw [if_pos hde] at h2
            rw [if_pos (hcd.trans hde)]
            exact ih ds es h1 h2
          · rw [if_neg hde] at h2
            simp only [decide_eq_true_eq] at h2
            rw [if_neg (by omega)]
            simp only [decide_eq_true_eq]
            omega
        · rw [if_neg hcd] at h1
          simp only [decide_eq_true_eq] at h1
          by_cases hde : d.toNat = e.toNat
          · rw [if_neg (by omega)]
            simp only [decide_eq_true_eq]
            omega
          · rw [if_neg hde] at h2
            simp only [decide_eq_true_eq] at h2
            rw [if_neg (by omega)]
            simp only [decide_eq_true_eq]
            omega

theorem strLeB_refl (a : String) : strLeB a a = true := lexLe_refl a.data

theorem strLeB_total (a b : String) (h : ¬ strLeB a b = true) :
    strLeB b a = true := lexLe_total a.data b.data h

theorem strLeB_antisymm (a b : String) (h1 : strLeB a b = true)
    (h2 : strLeB b a = true) : a = b := by
  cases a with
  | mk da =>
    cases b with
    | mk db => exact congrArg String.mk (lexLe_antisymm da db h1 h2)

theorem strLeB_trans (a b c : String) (h1 : strLeB a b = true)
    (h2 : strLeB b c = true) : strLeB a c = true :=
  lexLe_trans a.data b.data c.data h1 h2

theorem minS_comm (a b : String) : minS a b = minS b a := by
  unfold minS
  by_cases h : strLeB a b = true
  · by_cases h' : strLeB b a = true
    · simp [h, h', strLeB_antisymm a b h h']
    · simp [h, h']
  · have h' := strLeB_total a b h
    simp [h, h']

theorem maxS_comm (a b : String) : maxS a b = maxS b a := by
  unfold maxS
  by_cases h : strLeB a b = true
  · by_cases h' : strLeB b a = true
    · simp [h, h', strLeB_antisymm a b h h']
    · simp [h, h']
  · have h' := strLeB_total a b h
    simp [h, h']

/-- The spec's priority mapping depends only on the unordered pair of
observed values: swapping the two arguments does not change it. -/
theorem specPriorityEnc_comm (a b : String) :
    specPriorityEnc a b = specPriorityEnc b a := by
  funext x
  unfold specPriorityEnc
  rw [sameSet_swap a b ["Yes", "No"], sameSet_swap a b ["Male", "Female"],
    minS_comm, maxS_comm]

theorem sortStrs_pair (a b : String) :
    sortStrs [a, b] = if strLeB a b then [a, b] else [b, a] := by
  simp [sortStrs, insertStr]

/-- Pointwise agreement of the source's third branch (sort-then-map on the
stringified cell) with the spec's min/max rule, on the cells that can
actually occur in a column whose distinct values are `a` and `b`. -/
theorem strMap2_sorted_eq_specMapTo (a b : String) (hab : a ≠ b)
    (ha : a ≠ "nan") (hb : b ≠ "nan") (x : Cell)
    (hx : x = Cell.na ∨ x = Cell.s a ∨ x = Cell.s b) :
    strMap2 ((sortStrs [a, b]).headD "") ((sortStrs [a, b]).getD 1 "") x
      = specMapTo (minS a b) (maxS a b) x := by
  rw [sortStrs_pair]
  by_cases hle : strLeB a b = true <;>
    rcases hx with rfl | rfl | rfl <;>
      simp [hle, minS, maxS, strMap2, specMapTo, cellToStr, hab, hab.symm,
        Ne.symm ha, Ne.symm hb]

/-- The central computation rule for `_map_binary_series`: on a series
whose distinct non-missing values are the two strings `a` and `b` (neither
being the literal "nan"), the result is the pointwise application of the
spec's priority mapping, as a nullable-integer series. -/
theorem map_binary_series_rule (cells : List Cell) (dt : Dtype) (a b : String)
    (hv : dedupBy (cells.filter (fun x => x ≠ Cell.na)) = [Cell.s a, Cell.s b])
    (ha : a ≠ "nan") (hb : b ≠ "nan") :
    map_binary_series cells dt = (cells.map (specPriorityEnc a b), Dtype.int64N) := by
  have hBV : binVals cells = [a, b] := by
    unfold binVals; rw [hv]; rfl
  have hab : a ≠ b := by
    have hnd : ([Cell.s a, Cell.s b] : List Cell).Nodup := by
      rw [← hv]; exact nodup_dedupBy _
    intro h; rw [h] at hnd; simp at hnd
  have hmem : ∀ x ∈ cells, x = Cell.na ∨ x = Cell.s a ∨ x = Cell.s b := by
    intro x hx
    by_cases hna : x = Cell.na
    · exact .inl hna
    · right
      have : x ∈ dedupBy (cells.filter (fun y => y ≠ Cell.na)) :=
        (mem_dedupBy _ _).mpr (List.mem_filter.mpr ⟨hx, by simpa using hna⟩)
      rw [hv] at this
      simpa using this
  unfold map_binary_series
  rw [hBV]
  by_cases h1 : sameSet [a, b] ["Yes", "No"] = true
  · rcases (sameSet_pair_iff a b "Yes" "No" hab (by decide)).mp h1 with
      ⟨rfl, rfl⟩ | ⟨rfl, rfl⟩ <;>
      · simp only [h1, if_true]
        refine Prod.ext ?_ rfl
        refine List.map_congr_left (fun x hx => ?_)
        rcases hmem x hx with rfl | rfl | rfl <;> decide
  · by_cases h2 : sameSet [a, b] ["Male", "Female"] = true
    · rcases (sameSet_pair_iff a b "Male" "Female" hab (by decide)).mp h2 with
        ⟨rfl, rfl⟩ | ⟨rfl, rfl⟩ <;>
        · simp only [h1, h2, if_true, Bool.false_eq_true, if_false]
          refine Prod.ext ?_ rfl
          refine List.map_congr_left (fun x hx => ?_)
          rcases hmem x hx with rfl | rfl | rfl <;> decide
    · simp only [h1, h2, Bool.false_eq_true, if_false, List.length_cons,
        List.length_singleton, List.length_nil, if_true]
      have hgoal : (if ([a, b] : List String).length = 2 then
          (cells.map
            (strMap2 ((sortStrs [a, b]).headD "") ((sortStrs [a, b]).getD 1 "")),
              Dtype.int64N)
        else (cells, dt)) =
          (cells.map (specPriorityEnc a b), Dtype.int64N) := by
        rw [if_pos (by simp)]
        refine Prod.ext ?_ rfl
        refine List.map_congr_left (fun x hx => ?_)
        rw [strMap2_sorted_eq_specMapTo a b hab ha hb x (hmem x hx)]
        simp [specPriorityEnc, h1, h2]
      exact hgoal

/-- C1: for every categorical column with exactly two distinct observed
non-missing values, the binary encoder maps values to 0/1 by the priority
rules — value set {Yes,No} maps No to 0 and Yes to 1; value set
{Male,Female} maps Female to 0 and Male to 1; otherwise the
lexicographically smaller value maps to 0 and the other to 1 — and the
mapping is independent of the order in which rows or values appear, since
`specPriorityEnc a b = specPriorityEnc b a`. -/
theorem binary_encoder_priority_rules (cells : List Cell) (dt : Dtype)
    (a b : String)
    (hv : dedupBy (cells.filter (fun x => x ≠ Cell.na)) = [Cell.s a, Cell.s b])
    (ha : a ≠ "nan") (hb : b ≠ "nan") :
    map_binary_series cells dt = (cells.map (specPriorityEnc a b), Dtype.int64N)
      ∧ specPriorityEnc a b = specPriorityEnc b a :=
  ⟨map_binary_series_rule cells dt a b hv ha hb, specPriorityEnc_comm a b⟩

/-- Witness for C1: a concrete two-valued column (values appearing with
"Red" first) with a missing entry, encoded by the generic-rule branch. -/
theorem binary_encoder_priority_rules_witness :
    map_binary_series [Cell.s "Red", Cell.s "Blue", Cell.na, Cell.s "Red"]
        Dtype.object
      = ([Cell.s "Red", Cell.s "Blue", Cell.na, Cell.s "Red"].map
          (specPriorityEnc "Red" "Blue"), Dtype.int64N)
    ∧ specPriorityEnc "Red" "Blue" = specPriorityEnc "Blue" "Red" :=
  binary_encoder_priority_rules _ _ "Red" "Blue" (by decide) (by decide)
    (by decide)

/-! ### The `build_features` pipeline (build_features.py:52-144) -/

/-- Membership of a column in `binary_cols` (build_features.py:87): an
object-dtype non-target column with exactly two distinct non-missing
values. -/
def isBinaryCol (t : String) (c : Column) : Bool :=
  decide (c.dtype = Dtype.object ∧ c.name ≠ t ∧ nunique c = 2)

/-- Membership of a column in `multi_cols` (build_features.py:88): an
object-dtype non-target column with more than two distinct non-missing
values. -/
def isMultiCol (t : String) (c : Column) : Bool :=
  decide (c.dtype = Dtype.object ∧ c.name ≠ t ∧ 2 < nunique c)

/-- The list `binary_cols` of names of binary categorical columns. -/
def binaryNames (df : DataFrame) (t : String) : List String :=
  (df.filter (isBinaryCol t)).map Column.name

/-- The list `multi_cols` of names of multi-category columns. -/
def multiNames (df : DataFrame) (t : String) : List String :=
  (df.filter (isMultiCol t)).map Column.name

/-- `df[c].astype(str)` (build_features.py:103): every cell, including
NaN, becomes its string form; the resulting series has object dtype. -/
def strCells (c : Column) : List Cell :=
  c.cells.map (fun x => Cell.s (cellToStr x))

/-- `df[c] = _map_binary_series(df[c].astype(str))` for one column. -/
def applyBin (c : Column) : Column :=
  { name := c.name
    dtype := (map_binary_series (strCells c) Dtype.object).2
    cells := (map_binary_series (strCells c) Dtype.object).1 }

/-- The per-column action of step 3 of `build_features`: re-encode the
column when its name was classified binary, leave it alone otherwise. -/
def binFun (bn : List String) (c : Column) : Column :=
  if c.name ∈ bn then applyBin c else c

/-- Step 3 of `build_features` (lines 101-104): re-encode each column
whose name was classified binary. -/
def binStep (bn : List String) (df : DataFrame) : DataFrame :=
  df.map (binFun bn)

/-- `df[bool_cols] = df[bool_cols].astype(int)` (lines 111-114) applied to
one column: boolean columns become int64 with 0/1 cells. -/
def boolToInt (c : Column) : Column :=
  if c.dtype = Dtype.boolT then
    { name := c.name
      dtype := Dtype.int64
      cells := c.cells.map (fun x =>
        match x with
        | .b bv => Cell.i (if bv then 1 else 0)
        | y => y) }
  else c

/-- Step 4 of `build_features`: convert boolean columns to integers. -/
def boolStep (df : DataFrame) : DataFrame := df.map boolToInt

/-- The string value of a cell, when it is a string.  Categorical object
columns in this pipeline hold strings (or NaN). -/
def cellStr? : Cell → Option String
  | .s v => some v
  | _ => none

/-- The distinct string values of a column, in first-seen order. -/
def strsOf (c : Column) : List String := c.cells.filterMap cellStr?

/-- The one-hot categories of a column as `pd.get_dummies` derives them:
distinct non-missing values, sorted ascending. -/
def catsOf (c : Column) : List String := sortStrs (dedupBy (strsOf c))

/-- One indicator column produced by `pd.get_dummies`: named
`{original_field}_{category_value}`, boolean dtype, true exactly at the
rows holding that category (NaN rows are false everywhere). -/
def dummyCol (c : Column) (v : String) : Column :=
  { name := c.name ++ "_" ++ v
    dtype := Dtype.boolT
    cells := c.cells.map (fun x => Cell.b (decide (x = Cell.s v))) }

/-- All indicator columns for one source column under `drop_first=True`:
the lexicographically first category is dropped as the reference level. -/
def dummiesFor (c : Column) : List Column :=
  (catsOf c).tail.map (dummyCol c)

/-- The indicator-column blocks appended by `pd.get_dummies`, one block
per encoded column, in the order of the `columns=` argument. -/
def dummyBlocks (df : DataFrame) : List String → List Column
  | [] => []
  | m :: ms =>
    (match df.find? (fun c => c.name == m) with
     | some c => dummiesFor c
     | none => []) ++ dummyBlocks df ms

/-- `pd.get_dummies(df, columns=multi, drop_first=True)` (lines 125-129):
the non-encoded columns keep their order, and the indicator blocks are
appended after them. -/
def get_dummies (df : DataFrame) (multi : List String) : DataFrame :=
  df.filter (fun c => decide (c.name ∉ multi)) ++ dummyBlocks df multi

/-- Step 5 of `build_features`: one-hot encode iff `multi_cols` is
non-empty (the source guards the call with `if multi_cols:`). -/
def dummyStep (mn : List String) (df : DataFrame) : DataFrame :=
  if mn = [] then df else get_dummies df mn

/-- `pd.api.types.is_integer_dtype`: true for int64 and the nullable
Int64, false for object, float64 and bool. -/
def isIntDtype : Dtype → Bool
  | .int64 => true
  | .int64N => true
  | _ => false

/-- `df[c] = df[c].fillna(0).astype(int)` (line 141) for one column. -/
def fillIntZero (c : Column) : Column :=
  { name := c.name
    dtype := Dtype.int64
    cells := c.cells.map (fun x => if x = Cell.na then Cell.i 0 else x) }

/-- The per-column action of step 6 of `build_features`: fill and cast a
binary column that ended up integer-typed. -/
def intFun (bn : List String) (c : Column) : Column :=
  if c.name ∈ bn ∧ isIntDtype c.dtype = true then fillIntZero c else c

/-- Step 6 of `build_features` (lines 139-141): binary columns that ended
up integer-typed are NA-filled with 0 and cast to plain int64. -/
def intStep (bn : List String) (df : DataFrame) : DataFrame :=
  df.map (intFun bn)

/-- `build_features` (build_features.py:52-144): classify the object
columns by cardinality, binary-encode the two-valued ones, convert
booleans to int, one-hot encode the multi-valued ones with
`drop_first=True`, and fill/cast integer-typed binary columns. -/
def build_features (df : DataFrame) (target_col : String) : DataFrame :=
  intStep (binaryNames df target_col)
    (dummyStep (multiNames df target_col)
      (boolStep (binStep (binaryNames df target_col) df)))

/-- The column of a frame bearing a given name, scanning left to right. -/
def outCol (df : DataFrame) (n : String) : Option Column :=
  df.find? (fun c => c.name == n)

/-- The ordered list of column names of a frame (`df.columns`). -/
def colNames (df : DataFrame) : List String := df.map Column.name

/-! ### Tracking a column through the pipeline -/

theorem binFun_name (bn : List String) (c : Column) :
    (binFun bn c).name = c.name := by
  unfold binFun
  split <;> simp [applyBin]

theorem boolToInt_name (c : Column) : (boolToInt c).name = c.name := by
  unfold boolToInt
  split <;> simp

theorem intFun_name (bn : List String) (c : Column) :
    (intFun bn c).name = c.name := by
  unfold intFun
  split <;> simp [fillIntZero]

theorem colNames_map (f : Column → Column) (hf : ∀ x, (f x).name = x.name)
    (df : DataFrame) : colNames (df.map f) = colNames df := by
  simp only [colNames, List.map_map]
  exact List.map_congr_left (fun x _ => hf x)

theorem find?_map_namePreserving (f : Column → Column)
    (hf : ∀ x, (f x).name = x.name) (df : DataFrame) (n : String) :
    (df.map f).find? (fun c => c.name == n)
      = (df.find? (fun c => c.name == n)).map f := by
  induction df with
  | nil => rfl
  | cons d ds ih =>
    simp only [List.map_cons]
    by_cases h : d.name = n
    · rw [List.find?_cons_of_pos _ (by simp [hf, h]),
        List.find?_cons_of_pos _ (by simp [h])]
      rfl
    · rw [List.find?_cons_of_neg _ (by simp [hf, h]),
        List.find?_cons_of_neg _ (by simp [h])]
      exact ih

theorem find?_append_left {p : Column → Bool} {l1 : List Column} (l2 : List Column)
    {x : Column} (h : l1.find? p = some x) : (l1 ++ l2).find? p = some x := by
  induction l1 with
  | nil => simp [List.find?] at h
  | cons d ds ih =>
    by_cases hd : p d = true
    · rw [List.find?_cons_of_pos _ hd] at h
      rw [List.cons_append, List.find?_cons_of_pos _ hd]
      exact h
    · rw [List.find?_cons_of_neg _ (by simpa using hd)] at h
      rw [List.cons_append, List.find?_cons_of_neg _ (by simpa using hd)]
      exact ih h

theorem eq_of_mem_name_eq (df : DataFrame) (hnd : (colNames df).Nodup)
    {c c' : Column} (hc : c ∈ df) (hc' : c' ∈ df) (h : c.name = c'.name) :
    c = c' := by
  induction df with
  | nil => cases hc
  | cons d ds ih =>
    simp only [colNames, List.map_cons, List.nodup_cons] at hnd
    rcases List.mem_cons.mp hc with rfl | hm
    · rcases List.mem_cons.mp hc' with rfl | hm'
      · rfl
      · exact absurd (h ▸ List.mem_map_of_mem Column.name hm') hnd.1
    · rcases List.mem_cons.mp hc' with rfl | hm'
      · exact absurd (h ▸ List.mem_map_of_mem Column.name hm) hnd.1
      · exact ih hnd.2 hm hm'

theorem find?_eq_some_self (df : DataFrame) (hnd : (colNames df).Nodup)
    {c : Column} (hc : c ∈ df) :
    df.find? (fun x => x.name == c.name) = some c := by
  induction df with
  | nil => cases hc
  | cons d ds ih =>
    simp only [colNames, List.map_cons, List.nodup_cons] at hnd
    rcases List.mem_cons.mp hc with rfl | hm
    · rw [List.find?_cons_of_pos _ (by simp)]
    · have hne : ¬ d.name = c.name := fun h =>
        hnd.1 (h ▸ List.mem_map_of_mem Column.name hm)
      rw [List.find?_cons_of_neg _ (by simpa using hne)]
      exact ih hnd.2 hm

/-- Membership of a column's name in a filtered-name list is exactly the
filter predicate holding of the column, given unique column names. -/
theorem name_mem_filterNames_iff (p : Column → Bool) (df : DataFrame)
    (hnd : (colNames df).Nodup) {c : Column} (hc : c ∈ df) :
    c.name ∈ (df.filter p).map Column.name ↔ p c = true := by
  constructor
  · intro hmem
    obtain ⟨c', hc', hname⟩ := List.mem_map.mp hmem
    have hf := List.mem_filter.mp hc'
    have : c' = c := eq_of_mem_name_eq df hnd hf.1 hc hname
    rw [← this]
    exact hf.2
  · intro hp
    exact List.mem_map_of_mem Column.name (List.mem_filter.mpr ⟨hc, hp⟩)

theorem outCol_binStep (bn : List String) (df : DataFrame) (n : String) :
    outCol (binStep bn df) n = (outCol df n).map (binFun bn) := by
  unfold outCol binStep
  exact find?_map_namePreserving _ (binFun_name bn) df n

theorem outCol_boolStep (df : DataFrame) (n : String) :
    outCol (boolStep df) n = (outCol df n).map boolToInt := by
  unfold outCol boolStep
  exact find?_map_namePreserving _ boolToInt_name df n

theorem outCol_intStep (bn : List String) (df : DataFrame) (n : String) :
    outCol (intStep bn df) n = (outCol df n).map (intFun bn) := by
  unfold outCol intStep
  exact find?_map_namePreserving _ (intFun_name bn) df n

theorem nodup_colNames_filter (df : DataFrame) (p : Column → Bool)
    (hnd : (colNames df).Nodup) : (colNames (df.filter p)).Nodup := by
  exact List.Sublist.nodup ((df.filter_sublist).map Column.name) hnd

/-- A column whose name is not one-hot encoded survives `get_dummies` in
the leading (non-encoded) part of the result. -/
theorem outCol_get_dummies_notMulti (df : DataFrame) (mn : List String)
    (hnd : (colNames df).Nodup) {c : Column} (hc : c ∈ df)
    (hcn : c.name ∉ mn) :
    outCol (get_dummies df mn) c.name = some c := by
  unfold outCol get_dummies
  apply find?_append_left
  have hmemf : c ∈ df.filter (fun x => decide (x.name ∉ mn)) :=
    List.mem_filter.mpr ⟨hc, by simpa using hcn⟩
  exact find?_eq_some_self _ (nodup_colNames_filter df _ hnd) hmemf

theorem outCol_dummyStep_notMulti (mn : List String) (df : DataFrame)
    (hnd : (colNames df).Nodup) {c : Column} (hc : c ∈ df)
    (hcn : c.name ∉ mn) :
    outCol (dummyStep mn df) c.name = some c := by
  unfold dummyStep
  split
  · exact find?_eq_some_self df hnd hc
  · exact outCol_get_dummies_notMulti df mn hnd hc hcn

theorem mem_map_of_fixed {f : Column → Column} {c : Column} {df : DataFrame}
    (hc : c ∈ df) (hfc : f c = c) : c ∈ df.map f := by
  have := List.mem_map_of_mem f hc
  rwa [hfc] at this

/-- C6 (amended): every object-dtype (categorical) field with fewer than
two distinct observed non-missing values is passed through `build_features`
unchanged — it is neither binary-encoded nor one-hot-expanded, and its
column appears in the output exactly as in the input.  (The claim's
"every field" fails for boolean columns, which are cast to int64; see the
counterexample.) -/
theorem low_cardinality_passthrough (df : DataFrame) (t : String)
    (c : Column) (hnd : (colNames df).Nodup) (hc : c ∈ df)
    (hdt : c.dtype = Dtype.object) (hcard : nunique c < 2) :
    outCol (build_features df t) c.name = some c := by
  have hbinF : isBinaryCol t c = false := by
    simp only [isBinaryCol, decide_eq_false_iff_not]
    rintro ⟨-, -, h2⟩
    omega
  have hmulF : isMultiCol t c = false := by
    simp only [isMultiCol, decide_eq_false_iff_not]
    rintro ⟨-, -, h2⟩
    omega
  have hbn : c.name ∉ binaryNames df t := by
    intro hmem
    simp only [binaryNames] at hmem
    have := (name_mem_filterNames_iff (isBinaryCol t) df hnd hc).mp hmem
    rw [hbinF] at this
    cases this
  have hmn : c.name ∉ multiNames df t := by
    intro hmem
    simp only [multiNames] at hmem
    have := (name_mem_filterNames_iff (isMultiCol t) df hnd hc).mp hmem
    rw [hmulF] at this
    cases this
  have hf1 : binFun (binaryNames df t) c = c := by
    unfold binFun
    exact if_neg hbn
  have hf2 : boolToInt c = c := by
    unfold boolToInt
    rw [if_neg]
    rw [hdt]
    simp
  have hf4 : intFun (binaryNames df t) c = c := by
    unfold intFun
    rw [if_neg]
    rintro ⟨hmem, -⟩
    exact hbn hmem
  have hc1 : c ∈ binStep (binaryNames df t) df := mem_map_of_fixed hc hf1
  have hc2 : c ∈ boolStep (binStep (binaryNames df t) df) :=
    mem_map_of_fixed hc1 hf2
  have hnd2 :
      (colNames (boolStep (binStep (binaryNames df t) df))).Nodup := by
    unfold boolStep binStep
    rw [colNames_map boolToInt boolToInt_name,
      colNames_map _ (binFun_name (binaryNames df t))]
    exact hnd
  unfold build_features
  rw [outCol_intStep,
    outCol_dummyStep_notMulti (multiNames df t) _ hnd2 hc2 hmn]
  simp [hf4]

/-- C6 counterexample: a boolean column with a single distinct observed
value ("fewer than two distinct observed non-missing values") is not
passed through unchanged — `build_features` casts it to int64 with 0/1
cells, so the claim's "every field" is refuted. -/
theorem low_cardinality_passthrough_counterexample :
    nunique ⟨"Flag", Dtype.boolT, [Cell.b true, Cell.b true]⟩ = 1
    ∧ build_features [⟨"Flag", Dtype.boolT, [Cell.b true, Cell.b true]⟩]
        "Churn" = [⟨"Flag", Dtype.int64, [Cell.i 1, Cell.i 1]⟩]
    ∧ outCol
        (build_features [⟨"Flag", Dtype.boolT, [Cell.b true, Cell.b true]⟩]
          "Churn") "Flag"
        ≠ some ⟨"Flag", Dtype.boolT, [Cell.b true, Cell.b true]⟩ := by
  decide

/-- Witness for C6 (amended): a concrete object column with one distinct
value and a missing entry passes through unchanged. -/
theorem low_cardinality_passthrough_witness :
    outCol
      (build_features [⟨"Note", Dtype.object, [Cell.s "only", Cell.na]⟩]
        "Churn") "Note"
      = some ⟨"Note", Dtype.object, [Cell.s "only", Cell.na]⟩ :=
  low_cardinality_passthrough
    [⟨"Note", Dtype.object, [Cell.s "only", Cell.na]⟩] "Churn"
    ⟨"Note", Dtype.object, [Cell.s "only", Cell.na]⟩
    (by decide) (by decide) (by decide) (by decide)

/-! ### Binary columns through the pipeline (claim C2) -/

/-- From the distinct-value hypothesis: the two values differ and every
cell is missing or one of the two values. -/
theorem dedup_pair_props (cells : List Cell) (a b : String)
    (hv : dedupBy (cells.filter (fun x => x ≠ Cell.na))
      = [Cell.s a, Cell.s b]) :
    a ≠ b ∧ ∀ x ∈ cells, x = Cell.na ∨ x = Cell.s a ∨ x = Cell.s b := by
  constructor
  · have hnd : ([Cell.s a, Cell.s b] : List Cell).Nodup := by
      rw [← hv]; exact nodup_dedupBy _
    intro h
    rw [h] at hnd
    simp at hnd
  · intro x hx
    by_cases hna : x = Cell.na
    · exact .inl hna
    · right
      have : x ∈ dedupBy (cells.filter (fun y => y ≠ Cell.na)) :=
        (mem_dedupBy _ _).mpr (List.mem_filter.mpr ⟨hx, by simpa using hna⟩)
      rw [hv] at this
      simpa using this

/-- The spec's priority mapping sends the two observed values to distinct
members of {0, 1}. -/
theorem specPriorityEnc_values (a b : String) (hab : a ≠ b) :
    (specPriorityEnc a b (Cell.s a) = Cell.i 0
      ∨ specPriorityEnc a b (Cell.s a) = Cell.i 1)
    ∧ (specPriorityEnc a b (Cell.s b) = Cell.i 0
      ∨ specPriorityEnc a b (Cell.s b) = Cell.i 1)
    ∧ specPriorityEnc a b (Cell.s a) ≠ specPriorityEnc a b (Cell.s b) := by
  by_cases h1 : sameSet [a, b] ["Yes", "No"] = true
  · rcases (sameSet_pair_iff a b "Yes" "No" hab (by decide)).mp h1 with
      ⟨rfl, rfl⟩ | ⟨rfl, rfl⟩ <;> decide
  · by_cases h2 : sameSet [a, b] ["Male", "Female"] = true
    · rcases (sameSet_pair_iff a b "Male" "Female" hab (by decide)).mp h2 with
        ⟨rfl, rfl⟩ | ⟨rfl, rfl⟩ <;> decide
    · unfold specPriorityEnc
      simp only [h1, h2, Bool.false_eq_true, if_false]
      by_cases hle : strLeB a b = true
      · simp [specMapTo, minS, maxS, hle, hab.symm]
      · simp [specMapTo, minS, maxS, hle, hab]

/-- If three pairwise-distinct strings occur in a duplicate-free list, the
list has at least three entries. -/
theorem three_le_length_of_nodup {l : List String} (hnd : l.Nodup)
    {x y z : String} (hx : x ∈ l) (hy : y ∈ l) (hz : z ∈ l)
    (hxy : x ≠ y) (hxz : x ≠ z) (hyz : y ≠ z) : 3 ≤ l.length := by
  classical
  have hsub : ({x, y, z} : Finset String) ⊆ l.toFinset := by
    intro w hw
    simp only [Finset.mem_insert, Finset.mem_singleton] at hw
    rcases hw with rfl | rfl | rfl <;> simpa [List.mem_toFinset]
  have hcard : ({x, y, z} : Finset String).card = 3 := by
    rw [Finset.card_insert_of_not_mem (by simp [hxy, hxz]),
      Finset.card_insert_of_not_mem (by simp [hyz]), Finset.card_singleton]
  have hle := Finset.card_le_card hsub
  rw [hcard, List.toFinset_card_of_nodup hnd] at hle
  exact hle

/-- When a binary-classified column contains a missing value, the series
passed to `_map_binary_series` has been stringified, so it shows three
distinct values (the two real ones plus "nan") and the function returns it
unchanged: the binary encoding is silently skipped. -/
theorem map_binary_series_skip_nan (c : Column) (a b : String)
    (hv : dedupBy (c.cells.filter (fun x => x ≠ Cell.na))
      = [Cell.s a, Cell.s b])
    (ha : a ≠ "nan") (hb : b ≠ "nan") (hna : Cell.na ∈ c.cells) :
    map_binary_series (strCells c) Dtype.object
      = (strCells c, Dtype.object) := by
  obtain ⟨hab, hmem⟩ := dedup_pair_props c.cells a b hv
  have hstr_shape : ∀ y ∈ strCells c, ∃ v, y = Cell.s v := by
    intro y hy
    obtain ⟨x, -, rfl⟩ := List.mem_map.mp hy
    exact ⟨cellToStr x, rfl⟩
  have hfilter : (strCells c).filter (fun x => x ≠ Cell.na) = strCells c := by
    apply List.filter_eq_self.mpr
    intro y hy
    obtain ⟨v, rfl⟩ := hstr_shape y hy
    simp
  have hbv : binVals (strCells c) = (dedupBy (strCells c)).map cellToStr := by
    unfold binVals
    rw [hfilter]
  have hDnodup := nodup_dedupBy (strCells c)
  have hnanD : Cell.s "nan" ∈ dedupBy (strCells c) := by
    rw [mem_dedupBy]
    have := List.mem_map_of_mem (fun x => Cell.s (cellToStr x)) hna
    simpa [strCells, cellToStr] using this
  have haD : Cell.s a ∈ dedupBy (strCells c) := by
    rw [mem_dedupBy]
    have h1 : Cell.s a ∈ dedupBy (c.cells.filter (fun x => x ≠ Cell.na)) := by
      rw [hv]; simp
    have h2 : Cell.s a ∈ c.cells :=
      (List.mem_filter.mp ((mem_dedupBy _ _).mp h1)).1
    have := List.mem_map_of_mem (fun x => Cell.s (cellToStr x)) h2
    simpa [strCells, cellToStr] using this
  have hbD : Cell.s b ∈ dedupBy (strCells c) := by
    rw [mem_dedupBy]
    have h1 : Cell.s b ∈ dedupBy (c.cells.filter (fun x => x ≠ Cell.na)) := by
      rw [hv]; simp
    have h2 : Cell.s b ∈ c.cells :=
      (List.mem_filter.mp ((mem_dedupBy _ _).mp h1)).1
    have := List.mem_map_of_mem (fun x => Cell.s (cellToStr x)) h2
    simpa [strCells, cellToStr] using this
  have hvalsnodup : ((dedupBy (strCells c)).map cellToStr).Nodup := by
    refine List.Nodup.map_on ?_ hDnodup
    intro x hxD y hyD hxy
    obtain ⟨u, rfl⟩ := hstr_shape x ((mem_dedupBy _ _).mp hxD)
    obtain ⟨v, rfl⟩ := hstr_shape y ((mem_dedupBy _ _).mp hyD)
    simpa [cellToStr] using hxy
  have hnanv : "nan" ∈ (dedupBy (strCells c)).map cellToStr := by
    have := List.mem_map_of_mem cellToStr hnanD
    simpa [cellToStr] using this
  have hav : a ∈ (dedupBy (strCells c)).map cellToStr := by
    have := List.mem_map_of_mem cellToStr haD
    simpa [cellToStr] using this
  have hbv2 : b ∈ (dedupBy (strCells c)).map cellToStr := by
    have := List.mem_map_of_mem cellToStr hbD
    simpa [cellToStr] using this
  have h1 : ¬ sameSet (binVals (strCells c)) ["Yes", "No"] = true := by
    rw [hbv]
    intro h
    have := ((sameSet_true_iff _ _).mp h).1 "nan" hnanv
    simp at this
  have h2 : ¬ sameSet (binVals (strCells c)) ["Male", "Female"] = true := by
    rw [hbv]
    intro h
    have := ((sameSet_true_iff _ _).mp h).1 "nan" hnanv
    simp at this
  have h3 : ¬ (binVals (strCells c)).length = 2 := by
    rw [hbv]
    have := three_le_length_of_nodup hvalsnodup hav hbv2 hnanv hab ha hb
    omega
  unfold map_binary_series
  rw [if_neg h1, if_neg h2, if_neg h3]

theorem nodup_colNames_boolbin (bn : List String) (df : DataFrame)
    (hnd : (colNames df).Nodup) :
    (colNames (boolStep (binStep bn df))).Nodup := by
  unfold boolStep binStep
  rw [colNames_map boolToInt boolToInt_name,
    colNames_map _ (binFun_name bn)]
  exact hnd

/-- C2 (amended): for a column classified as binary (exactly two distinct
observed non-missing string values `a`, `b`, neither the literal "nan"):
if the column has no missing values, `build_features` encodes it to plain
int64 by the deterministic priority mapping, the two observed values going
to distinct members of {0,1}; but if the column contains any missing
value, the encoding is skipped entirely — every cell (missing included) is
replaced by its string form, so missing does NOT stay missing (it becomes
the string "nan") and the observed values are NOT encoded to {0,1}. -/
theorem binary_encode_nullable_cases (df : DataFrame) (t : String)
    (c : Column) (a b : String) (hnd : (colNames df).Nodup) (hc : c ∈ df)
    (hdt : c.dtype = Dtype.object) (hnt : c.name ≠ t)
    (hv : dedupBy (c.cells.filter (fun x => x ≠ Cell.na))
      = [Cell.s a, Cell.s b])
    (ha : a ≠ "nan") (hb : b ≠ "nan") :
    (Cell.na ∉ c.cells →
      outCol (build_features df t) c.name
        = some ⟨c.name, Dtype.int64, c.cells.map (specPriorityEnc a b)⟩
      ∧ specPriorityEnc a b (Cell.s a) ≠ specPriorityEnc a b (Cell.s b)
      ∧ (specPriorityEnc a b (Cell.s a) = Cell.i 0
          ∨ specPriorityEnc a b (Cell.s a) = Cell.i 1)
      ∧ (specPriorityEnc a b (Cell.s b) = Cell.i 0
          ∨ specPriorityEnc a b (Cell.s b) = Cell.i 1))
    ∧ (Cell.na ∈ c.cells →
      outCol (build_features df t) c.name
        = some ⟨c.name, Dtype.object, strCells c⟩) := by
  obtain ⟨hab, hmem⟩ := dedup_pair_props c.cells a b hv
  have hcard : nunique c = 2 := by
    unfold nunique
    rw [hv]
    rfl
  have hbnmem : c.name ∈ binaryNames df t := by
    simp only [binaryNames]
    exact (name_mem_filterNames_iff (isBinaryCol t) df hnd hc).mpr
      (by simp [isBinaryCol, hdt, hnt, hcard])
  have hmnout : c.name ∉ multiNames df t := by
    intro hmemn
    simp only [multiNames] at hmemn
    have := (name_mem_filterNames_iff (isMultiCol t) df hnd hc).mp hmemn
    simp [isMultiCol, hcard] at this
  have hnd2 := nodup_colNames_boolbin (binaryNames df t) df hnd
  constructor
  · intro hnomiss
    have hstr_eq : strCells c = c.cells := by
      unfold strCells
      have hpt : ∀ x ∈ c.cells, Cell.s (cellToStr x) = id x := by
        intro x hx
        rcases hmem x hx with rfl | rfl | rfl
        · exact absurd hx hnomiss
        · rfl
        · rfl
      rw [List.map_congr_left hpt, List.map_id]
    have hAB : applyBin c
        = ⟨c.name, Dtype.int64N, c.cells.map (specPriorityEnc a b)⟩ := by
      unfold applyBin
      rw [hstr_eq, map_binary_series_rule c.cells Dtype.object a b hv ha hb]
    have hfix1 : binFun (binaryNames df t) c
        = ⟨c.name, Dtype.int64N, c.cells.map (specPriorityEnc a b)⟩ := by
      unfold binFun
      rw [if_pos hbnmem, hAB]
    have hmem1 :
        (⟨c.name, Dtype.int64N, c.cells.map (specPriorityEnc a b)⟩ : Column)
          ∈ binStep (binaryNames df t) df := by
      have := List.mem_map_of_mem (binFun (binaryNames df t)) hc
      rwa [hfix1] at this
    have hbfix : boolToInt
        ⟨c.name, Dtype.int64N, c.cells.map (specPriorityEnc a b)⟩
        = ⟨c.name, Dtype.int64N, c.cells.map (specPriorityEnc a b)⟩ := by
      unfold boolToInt
      rw [if_neg (by simp)]
    have hmem2 :
        (⟨c.name, Dtype.int64N, c.cells.map (specPriorityEnc a b)⟩ : Column)
          ∈ boolStep (binStep (binaryNames df t) df) :=
      mem_map_of_fixed hmem1 hbfix
    refine ⟨?_, (specPriorityEnc_values a b hab).2.2,
      (specPriorityEnc_values a b hab).1, (specPriorityEnc_values a b hab).2.1⟩
    unfold build_features
    rw [outCol_intStep]
    rw [outCol_dummyStep_notMulti (multiNames df t) _ hnd2 hmem2 hmnout]
    simp only [Option.map_some']
    congr 1
    unfold intFun
    rw [if_pos ⟨hbnmem, rfl⟩]
    unfold fillIntZero
    simp only
    congr 1
    rw [List.map_map]
    refine List.map_congr_left (fun x hx => ?_)
    rcases hmem x hx with rfl | rfl | rfl
    · exact absurd hx hnomiss
    · rcases (specPriorityEnc_values a b hab).1 with h | h <;>
        simp [Function.comp, h]
    · rcases (specPriorityEnc_values a b hab).2.1 with h | h <;>
        simp [Function.comp, h]
  · intro hmiss
    have hAB : applyBin c = ⟨c.name, Dtype.object, strCells c⟩ := by
      unfold applyBin
      rw [map_binary_series_skip_nan c a b hv ha hb hmiss]
    have hfix1 : binFun (binaryNames df t) c
        = ⟨c.name, Dtype.object, strCells c⟩ := by
      unfold binFun
      rw [if_pos hbnmem, hAB]
    have hmem1 : (⟨c.name, Dtype.object, strCells c⟩ : Column)
        ∈ binStep (binaryNames df t) df := by
      have := List.mem_map_of_mem (binFun (binaryNames df t)) hc
      rwa [hfix1] at this
    have hbfix : boolToInt ⟨c.name, Dtype.object, strCells c⟩
        = ⟨c.name, Dtype.object, strCells c⟩ := by
      unfold boolToInt
      rw [if_neg (by simp)]
    have hmem2 : (⟨c.name, Dtype.object, strCells c⟩ : Column)
        ∈ boolStep (binStep (binaryNames df t) df) :=
      mem_map_of_fixed hmem1 hbfix
    unfold build_features
    rw [outCol_intStep]
    rw [outCol_dummyStep_notMulti (multiNames df t) _ hnd2 hmem2 hmnout]
    simp only [Option.map_some']
    congr 1
    unfold intFun
    rw [if_neg]
    rintro ⟨-, hbad⟩
    simp [isIntDtype] at hbad

/-! ### One-hot expansion of multi-category columns (claim C3) -/

theorem mem_insertStr (s x : String) (l : List String) :
    x ∈ insertStr s l ↔ x = s ∨ x ∈ l := by
  induction l with
  | nil => simp [insertStr]
  | cons t ts ih =>
    unfold insertStr
    split
    · simp
    · simp only [List.mem_cons, ih]
      tauto

theorem mem_sortStrs (x : String) (l : List String) :
    x ∈ sortStrs l ↔ x ∈ l := by
  induction l with
  | nil => simp [sortStrs]
  | cons a as ih =>
    show x ∈ insertStr a (sortStrs as) ↔ _
    rw [mem_insertStr]
    simp [ih]

theorem pairwise_insertStr (s : String) (l : List String)
    (h : l.Pairwise (fun x y => strLeB x y = true)) :
    (insertStr s l).Pairwise (fun x y => strLeB x y = true) := by
  induction l with
  | nil => simp [insertStr]
  | cons t ts ih =>
    rw [List.pairwise_cons] at h
    unfold insertStr
    split
    · rename_i hle
      rw [List.pairwise_cons]
      refine ⟨?_, List.pairwise_cons.mpr h⟩
      intro x hx
      rcases List.mem_cons.mp hx with rfl | hx'
      · exact hle
      · exact strLeB_trans s t x hle (h.1 x hx')
    · rename_i hnle
      rw [List.pairwise_cons]
      refine ⟨?_, ih h.2⟩
      intro x hx
      rcases (mem_insertStr s x ts).mp hx with rfl | hx'
      · exact strLeB_total _ _ hnle
      · exact h.1 x hx'

theorem sortStrs_pairwise (l : List String) :
    (sortStrs l).Pairwise (fun x y => strLeB x y = true) := by
  induction l with
  | nil => simp [sortStrs]
  | cons a as ih => exact pairwise_insertStr a (sortStrs as) ih

theorem sorted_headD_le (l : List String)
    (h : l.Pairwise (fun x y => strLeB x y = true)) :
    ∀ v ∈ l, strLeB (l.headD "") v = true := by
  cases l with
  | nil => intro v hv; cases hv
  | cons a t =>
    rw [List.pairwise_cons] at h
    intro v hv
    rcases List.mem_cons.mp hv with rfl | hv'
    · exact strLeB_refl v
    · exact h.1 v hv'

theorem length_insertStr (s : String) (l : List String) :
    (insertStr s l).length = l.length + 1 := by
  induction l with
  | nil => rfl
  | cons t ts ih =>
    unfold insertStr
    split
    · rfl
    · simp [ih]

theorem length_sortStrs (l : List String) :
    (sortStrs l).length = l.length := by
  induction l with
  | nil => rfl
  | cons a as ih =>
    show (insertStr a (sortStrs as)).length = _
    rw [length_insertStr, ih]
    rfl

/-- On a string-or-missing column, dropping the missing cells is the same
as keeping exactly the string cells. -/
theorem filter_na_eq_map_strsOf (c : Column)
    (hstr : ∀ x ∈ c.cells, x = Cell.na ∨ ∃ v, x = Cell.s v) :
    c.cells.filter (fun x => x ≠ Cell.na) = (strsOf c).map Cell.s := by
  unfold strsOf
  have h : ∀ (l : List Cell), (∀ x ∈ l, x = Cell.na ∨ ∃ v, x = Cell.s v) →
      l.filter (fun x => x ≠ Cell.na) = (l.filterMap cellStr?).map Cell.s := by
    intro l hl
    induction l with
    | nil => rfl
    | cons x xs ih =>
      rcases hl x (List.mem_cons_self _ _) with rfl | ⟨v, rfl⟩
      · simpa [cellStr?] using ih (fun y hy => hl y (List.mem_cons_of_mem _ hy))
      · simpa [cellStr?] using ih (fun y hy => hl y (List.mem_cons_of_mem _ hy))
  exact h c.cells hstr

theorem filter_ne_map_s (a : String) (m : List String) :
    (m.map Cell.s).filter (fun x => x ≠ Cell.s a)
      = (m.filter (fun x => x ≠ a)).map Cell.s := by
  induction m with
  | nil => rfl
  | cons b bs ih =>
    simp only [List.map_cons, List.filter_cons]
    by_cases hba : b = a
    · subst hba
      simpa using ih
    · have ih' := ih
      simp only [ne_eq, decide_not] at ih'
      simp [hba, ih']

theorem dedupBy_map_s (l : List String) :
    dedupBy (l.map Cell.s) = (dedupBy l).map Cell.s := by
  induction l with
  | nil => rfl
  | cons a as ih =>
    simp only [List.map_cons, dedupBy, ih]
    rw [filter_ne_map_s]

theorem dummyBlocks_append (df : DataFrame) (u v : List String) :
    dummyBlocks df (u ++ v) = dummyBlocks df u ++ dummyBlocks df v := by
  induction u with
  | nil => rfl
  | cons m ms ih =>
    simp only [List.cons_append, dummyBlocks]
    rw [show dummyBlocks df (ms.append v)
        = dummyBlocks df ms ++ dummyBlocks df v from ih, List.append_assoc]

theorem intFun_dummiesFor (bn : List String) (c : Column) :
    (dummiesFor c).map (intFun bn) = dummiesFor c := by
  have hpt : ∀ y ∈ dummiesFor c, intFun bn y = id y := by
    intro y hy
    obtain ⟨v, -, rfl⟩ := List.mem_map.mp hy
    unfold intFun
    rw [if_neg (by rintro ⟨-, hbad⟩; simp [dummyCol, isIntDtype] at hbad)]
    rfl
  rw [List.map_congr_left hpt, List.map_id]

/-- C3: a categorical non-target column with three or more distinct
values (its cells being strings or missing) is expanded by
`build_features` into exactly N−1 boolean indicator columns, appearing as
one contiguous block of the output; each is named by concatenating the
field name, an underscore and the category value, and is true exactly at
the rows holding that category.  The dropped reference category is the
lexicographically first of the sorted distinct values. -/
theorem multi_onehot_block (df : DataFrame) (t : String) (c : Column)
    (hnd : (colNames df).Nodup) (hc : c ∈ df)
    (hdt : c.dtype = Dtype.object) (hnt : c.name ≠ t)
    (hstr : ∀ x ∈ c.cells, x = Cell.na ∨ ∃ v, x = Cell.s v)
    (hn : 2 < nunique c) :
    ∃ pre post,
      build_features df t = pre ++ dummiesFor c ++ post
      ∧ dummiesFor c = (catsOf c).tail.map (fun v =>
          (⟨c.name ++ "_" ++ v, Dtype.boolT,
            c.cells.map (fun x => Cell.b (decide (x = Cell.s v)))⟩ : Column))
      ∧ (dummiesFor c).length = nunique c - 1
      ∧ ∀ v ∈ catsOf c, strLeB ((catsOf c).headD "") v = true := by
  have hbnout : c.name ∉ binaryNames df t := by
    intro hmem
    simp only [binaryNames] at hmem
    have := (name_mem_filterNames_iff (isBinaryCol t) df hnd hc).mp hmem
    simp only [isBinaryCol, decide_eq_true_eq] at this
    omega
  have hmnmem : c.name ∈ multiNames df t := by
    simp only [multiNames]
    exact (name_mem_filterNames_iff (isMultiCol t) df hnd hc).mpr
      (by simp [isMultiCol, hdt, hnt, hn])
  have hf1 : binFun (binaryNames df t) c = c := by
    unfold binFun
    exact if_neg hbnout
  have hf2 : boolToInt c = c := by
    unfold boolToInt
    rw [if_neg]
    rw [hdt]
    simp
  have hc2 : c ∈ boolStep (binStep (binaryNames df t) df) :=
    mem_map_of_fixed (mem_map_of_fixed hc hf1) hf2
  have hnd2 := nodup_colNames_boolbin (binaryNames df t) df hnd
  have hfind : (boolStep (binStep (binaryNames df t) df)).find?
      (fun x => x.name == c.name) = some c :=
    find?_eq_some_self _ hnd2 hc2
  have hmnne : multiNames df t ≠ [] := List.ne_nil_of_mem hmnmem
  obtain ⟨m1, m2, hsplit⟩ := List.append_of_mem hmnmem
  have hcons : dummyBlocks (boolStep (binStep (binaryNames df t) df))
      (c.name :: m2)
      = dummiesFor c
        ++ dummyBlocks (boolStep (binStep (binaryNames df t) df)) m2 := by
    simp only [dummyBlocks, hfind]
  have hblocks : dummyStep (multiNames df t)
      (boolStep (binStep (binaryNames df t) df))
      = ((boolStep (binStep (binaryNames df t) df)).filter
          (fun x => decide (x.name ∉ multiNames df t))
        ++ dummyBlocks (boolStep (binStep (binaryNames df t) df)) m1)
        ++ dummiesFor c
        ++ dummyBlocks (boolStep (binStep (binaryNames df t) df)) m2 := by
    have hstep : dummyBlocks (boolStep (binStep (binaryNames df t) df))
        (multiNames df t)
        = dummyBlocks (boolStep (binStep (binaryNames df t) df)) m1
          ++ (dummiesFor c
            ++ dummyBlocks (boolStep (binStep (binaryNames df t) df)) m2) := by
      rw [hsplit, dummyBlocks_append, hcons]
    unfold dummyStep
    rw [if_neg hmnne]
    unfold get_dummies
    rw [hstep]
    simp [List.append_assoc]
  have hnuq : nunique c = (dedupBy (strsOf c)).length := by
    unfold nunique
    rw [filter_na_eq_map_strsOf c hstr, dedupBy_map_s]
    simp
  refine ⟨((boolStep (binStep (binaryNames df t) df)).filter
      (fun x => decide (x.name ∉ multiNames df t))
      ++ dummyBlocks (boolStep (binStep (binaryNames df t) df)) m1).map
        (intFun (binaryNames df t)),
    (dummyBlocks (boolStep (binStep (binaryNames df t) df)) m2).map
      (intFun (binaryNames df t)), ?_, rfl, ?_, ?_⟩
  · unfold build_features
    rw [hblocks]
    unfold intStep
    rw [List.map_append, List.map_append, intFun_dummiesFor]
  · unfold dummiesFor
    rw [List.length_map, List.length_tail]
    unfold catsOf
    rw [length_sortStrs, hnuq]
  · exact sorted_headD_le (catsOf c) (sortStrs_pairwise _)

/-- Witness for C3: the spec's Contract scenario.  The training frame has
`Contract` with the three values Month-to-month, One year, Two year; the
one-hot block consists of exactly the two indicator columns
`Contract_One year` and `Contract_Two year` (Month-to-month, the
lexicographically first category, is the dropped reference), and the
Month-to-month row has both indicators false. -/
theorem multi_onehot_block_witness :
    (∃ pre post,
      build_features
        [⟨"Churn", Dtype.object, [Cell.s "No", Cell.s "Yes", Cell.s "No"]⟩,
         ⟨"Contract", Dtype.object,
           [Cell.s "Month-to-month", Cell.s "One year", Cell.s "Two year"]⟩]
        "Churn"
      = pre
        ++ dummiesFor ⟨"Contract", Dtype.object,
             [Cell.s "Month-to-month", Cell.s "One year", Cell.s "Two year"]⟩
        ++ post
      ∧ dummiesFor ⟨"Contract", Dtype.object,
            [Cell.s "Month-to-month", Cell.s "One year", Cell.s "Two year"]⟩
        = (catsOf ⟨"Contract", Dtype.object,
            [Cell.s "Month-to-month", Cell.s "One year",
              Cell.s "Two year"]⟩).tail.map (fun v =>
            (⟨"Contract" ++ "_" ++ v, Dtype.boolT,
              [Cell.s "Month-to-month", Cell.s "One year",
                Cell.s "Two year"].map
                  (fun x => Cell.b (decide (x = Cell.s v)))⟩ : Column))
      ∧ (dummiesFor ⟨"Contract", Dtype.object,
          [Cell.s "Month-to-month", Cell.s "One year",
            Cell.s "Two year"]⟩).length
        = nunique ⟨"Contract", Dtype.object,
            [Cell.s "Month-to-month", Cell.s "One year",
              Cell.s "Two year"]⟩ - 1
      ∧ ∀ v ∈ catsOf ⟨"Contract", Dtype.object,
          [Cell.s "Month-to-month", Cell.s "One year", Cell.s "Two year"]⟩,
          strLeB ((catsOf ⟨"Contract", Dtype.object,
            [Cell.s "Month-to-month", Cell.s "One year",
              Cell.s "Two year"]⟩).headD "") v = true)
    ∧ build_features
        [⟨"Churn", Dtype.object, [Cell.s "No", Cell.s "Yes", Cell.s "No"]⟩,
         ⟨"Contract", Dtype.object,
           [Cell.s "Month-to-month", Cell.s "One year", Cell.s "Two year"]⟩]
        "Churn"
      = [⟨"Churn", Dtype.object, [Cell.s "No", Cell.s "Yes", Cell.s "No"]⟩,
         ⟨"Contract_One year", Dtype.boolT,
           [Cell.b false, Cell.b true, Cell.b false]⟩,
         ⟨"Contract_Two year", Dtype.boolT,
           [Cell.b false, Cell.b false, Cell.b true]⟩] :=
  ⟨multi_onehot_block
      [⟨"Churn", Dtype.object, [Cell.s "No", Cell.s "Yes", Cell.s "No"]⟩,
       ⟨"Contract", Dtype.object,
         [Cell.s "Month-to-month", Cell.s "One year", Cell.s "Two year"]⟩]
      "Churn"
      ⟨"Contract", Dtype.object,
        [Cell.s "Month-to-month", Cell.s "One year", Cell.s "Two year"]⟩
      (by decide) (by decide) (by decide) (by decide)
      (by
        intro x hx
        simp only [List.mem_cons, List.not_mem_nil, or_false] at hx
        rcases hx with rfl | rfl | rfl <;> exact .inr ⟨_, rfl⟩)
      (by decide),
    by decide⟩

/-- Decidable statement of the claim's nullable-safety for one encoded
column: missing cells stay missing and non-missing cells become 0 or 1. -/
def nullableSafeEncoded (input output : List Cell) : Bool :=
  decide (input.length = output.length)
    && (input.zip output).all (fun p =>
      if p.1 = Cell.na then decide (p.2 = Cell.na)
      else decide (p.2 = Cell.i 0 ∨ p.2 = Cell.i 1))

/-- C2 counterexample: the column ["Yes", "No", NaN] is classified binary
(two distinct non-missing values), yet `build_features` leaves it
unencoded: the output cells are the strings "Yes", "No", "nan" — the
missing value does not remain missing (it becomes the string "nan") and
the observed values are not encoded to 0/1, refuting the claim. -/
theorem binary_encode_nullable_counterexample :
    nunique ⟨"Partner", Dtype.object,
        [Cell.s "Yes", Cell.s "No", Cell.na]⟩ = 2
    ∧ build_features
        [⟨"Partner", Dtype.object, [Cell.s "Yes", Cell.s "No", Cell.na]⟩]
        "Churn"
      = [⟨"Partner", Dtype.object,
          [Cell.s "Yes", Cell.s "No", Cell.s "nan"]⟩]
    ∧ nullableSafeEncoded [Cell.s "Yes", Cell.s "No", Cell.na]
        [Cell.s "Yes", Cell.s "No", Cell.s "nan"] = false := by
  decide

/-- Witness for C2 (amended), missing-free case: a two-valued Yes/No
column without missing entries is encoded to int64 by the priority
mapping. -/
theorem binary_encode_nullable_cases_witness :
    outCol
      (build_features
        [⟨"Partner", Dtype.object, [Cell.s "Yes", Cell.s "No"]⟩] "Churn")
      "Partner"
      = some ⟨"Partner", Dtype.int64,
          [Cell.s "Yes", Cell.s "No"].map (specPriorityEnc "Yes" "No")⟩
    ∧ specPriorityEnc "Yes" "No" (Cell.s "Yes")
        ≠ specPriorityEnc "Yes" "No" (Cell.s "No")
    ∧ (specPriorityEnc "Yes" "No" (Cell.s "Yes") = Cell.i 0
        ∨ specPriorityEnc "Yes" "No" (Cell.s "Yes") = Cell.i 1)
    ∧ (specPriorityEnc "Yes" "No" (Cell.s "No") = Cell.i 0
        ∨ specPriorityEnc "Yes" "No" (Cell.s "No") = Cell.i 1) :=
  (binary_encode_nullable_cases
    [⟨"Partner", Dtype.object, [Cell.s "Yes", Cell.s "No"]⟩] "Churn"
    ⟨"Partner", Dtype.object, [Cell.s "Yes", Cell.s "No"]⟩ "Yes" "No"
    (by decide) (by decide) (by decide) (by decide) (by decide) (by decide)
    (by decide)).1 (by decide)

/-! ### The training artifact (scripts/run_pipeline.py:130-152, claim C5) -/

/-- The serialized preprocessing contract
(`{"feature_columns": [...], "target": ...}`), as persisted by
`run_pipeline.py` to `preprocessing.pkl` (and mirrored in
`feature_columns.json`). -/
structure PreprocessingArtifact where
  feature_columns : List String
  target : String
deriving DecidableEq, Repr

/-- `feature_cols = list(df_enc.drop(columns=[target]).columns)` together
with the `preprocessing_artifact` dict construction
(run_pipeline.py:134,144-147): drop the target column from the encoded
frame, keep the remaining column names in order, and store them with the
target field name. -/
def trainingArtifact (df_enc : DataFrame) (target : String) :
    PreprocessingArtifact :=
  { feature_columns := (df_enc.filter (fun c => decide (c.name ≠ target))).map
      Column.name
    target := target }

theorem map_name_filter (p : String → Bool) (df : DataFrame) :
    (df.filter (fun c => p c.name)).map Column.name = (colNames df).filter p := by
  induction df with
  | nil => rfl
  | cons d ds ih =>
    simp only [colNames, List.map_cons, List.filter_cons] at *
    by_cases h : p d.name = true
    · simp [h, ih]
    · simp [h, ih]

/-- C5: at training time the persisted contract artifact holds exactly the
ordered list of the encoded frame's column names with the target column
removed, stored together with the target field name. -/
theorem artifact_is_columns_minus_target (df : DataFrame) (t : String) :
    trainingArtifact (build_features df t) t
      = { feature_columns :=
            (colNames (build_features df t)).filter (fun n => decide (n ≠ t))
          target := t } := by
  unfold trainingArtifact
  rw [map_name_filter (fun n => decide (n ≠ t)) (build_features df t)]

/-! ### Aliasing model for in-place pandas mutation (claims C8, C9) -/

/-- A Python DataFrame variable seen from a caller: the caller's object,
the object the local name `df` currently refers to, and whether the two
are still the same object (aliased). -/
structure PyVar where
  caller : DataFrame
  loc : DataFrame
  aliased : Bool

/-- An in-place pandas operation through the local variable (column
assignment, attribute assignment, `fillna` with assignment, ...): it
mutates the referenced object, so it reaches the caller's object exactly
when the local name is still an alias of it. -/
def inplaceOp (f : DataFrame → DataFrame) (v : PyVar) : PyVar :=
  { caller := if v.aliased then f v.caller else v.caller
    loc := f v.loc
    aliased := v.aliased }

/-- A rebinding `df = expr(df)`: the local name is pointed at a fresh
object; the caller's object is no longer affected by later operations. -/
def rebindOp (f : DataFrame → DataFrame) (v : PyVar) : PyVar :=
  { caller := v.caller, loc := f v.loc, aliased := false }

/-- `build_features` with the aliasing of its `df` argument made
explicit.  Line 68 (`df = df.copy()`) rebinds the local name to a copy
before any mutation, so every later step acts on the copy.  The result is
the pair (final state of the caller's object, returned frame). -/
def build_features_proc (df : DataFrame) (t : String) :
    DataFrame × DataFrame :=
  let v1 := rebindOp id { caller := df, loc := df, aliased := true }
  let bn := binaryNames v1.loc t
  let mn := multiNames v1.loc t
  let v2 := inplaceOp (binStep bn) v1
  let v3 := inplaceOp boolStep v2
  let v4 := if mn = [] then v3 else rebindOp (fun d => get_dummies d mn) v3
  let v5 := inplaceOp (intStep bn) v4
  (v5.caller, v5.loc)

/-- C8: the feature encoder is a pure transform: `build_features` leaves
the caller's frame unchanged (the defensive copy at build_features.py:68
breaks aliasing before any mutation), and the returned frame is exactly
the pure function of the input. -/
theorem build_features_pure (df : DataFrame) (t : String) :
    build_features_proc df t = (df, build_features df t) := by
  unfold build_features_proc build_features rebindOp inplaceOp dummyStep
  by_cases h : multiNames df t = [] <;> simp [h]

/-! ### `preprocess_data` (src/data/preprocess.py, claim C9) -/

/-- The identifier columns dropped by preprocess.py:32-34, in loop
order. -/
def idCols : List String := ["customerID", "CustomerID", "customer_id"]

/-- Python `str.strip()` on a character list: drop leading and trailing
whitespace (the ASCII whitespace occurring in this dataset). -/
def trimChars (l : List Char) : List Char :=
  ((l.dropWhile Char.isWhitespace).reverse.dropWhile Char.isWhitespace).reverse

/-- Python `str.strip()`. -/
def strTrim (s : String) : String := ⟨trimChars s.data⟩

/-- `df.columns = df.columns.str.strip()` (preprocess.py:25): an in-place
attribute assignment stripping surrounding whitespace from every column
name. -/
def stripColsOp (df : DataFrame) : DataFrame :=
  df.map (fun c => { c with name := strTrim c.name })

/-- `col in df.columns`. -/
def hasCol (df : DataFrame) (n : String) : Bool :=
  df.any (fun c => c.name == n)

/-- `df.drop(columns=[col])`: remove the column(s) with that label. -/
def dropCol (df : DataFrame) (n : String) : DataFrame :=
  df.filter (fun c => c.name != n)

/-- The identifier-dropping loop of preprocess.py:32-34, as a pure
function on the frame value. -/
def dropIds (df : DataFrame) : DataFrame :=
  idCols.foldl (fun d n => if hasCol d n then dropCol d n else d) df

/-- `.str.strip()` on a cell: string cells are stripped; non-string cells
(missing included) become missing, as the pandas `.str` accessor does. -/
def stripCellStr : Cell → Cell
  | .s v => .s (strTrim v)
  | _ => .na

/-- `.map({"No": 0, "Yes": 1})` on a cell: unmapped values become NaN. -/
def ynMap : Cell → Cell
  | .s v => if v = "No" then .i 0 else if v = "Yes" then .i 1 else .na
  | _ => .na

/-- `.i` cells become `.f` cells (an integer series acquiring NaN is
promoted to float64 by pandas). -/
def intToFloat : Cell → Cell
  | .i n => .f n
  | x => x

/-- `df[target] = df[target].str.strip().map({"No": 0, "Yes": 1})`
(preprocess.py:41-46) on the target column: the result is int64 when
every value mapped, float64 with NaN otherwise. -/
def encodeTargetCol (c : Column) : Column :=
  if Cell.na ∈ c.cells.map (fun x => ynMap (stripCellStr x)) then
    { name := c.name
      dtype := Dtype.float64
      cells := (c.cells.map (fun x => ynMap (stripCellStr x))).map intToFloat }
  else
    { name := c.name
      dtype := Dtype.int64
      cells := c.cells.map (fun x => ynMap (stripCellStr x)) }

/-- Step 3 of `preprocess_data`: re-encode the target column when it is
present with object dtype. -/
def encodeTargetOp (t : String) (df : DataFrame) : DataFrame :=
  df.map (fun c =>
    if c.name = t ∧ c.dtype = Dtype.object then encodeTargetCol c else c)

/-- Split a character list at its single decimal point, if any; more than
one point is a parse failure. -/
def splitDot (l : List Char) : Option (List Char × List Char) :=
  match l.span (fun c => c ≠ '.') with
  | (pre, []) => some (pre, [])
  | (pre, _ :: rest) =>
    if rest.contains '.' then none else some (pre, rest)

/-- The value of a digit string. -/
def digitsVal (l : List Char) : Nat :=
  l.foldl (fun acc c => acc * 10 + (c.toNat - 48)) 0

/-- Parse a plain decimal literal (optional sign, digits, at most one
decimal point, at least one digit) to a rational, the numeric forms
`pd.to_numeric` meets in this dataset; anything else fails. -/
def parseDec (s : String) : Option Rat :=
  let signed : Int × List Char :=
    match s.data with
    | '-' :: r => (-1, r)
    | '+' :: r => (1, r)
    | r => (1, r)
  match splitDot signed.2 with
  | none => none
  | some (ip, fp) =>
    if (ip.all (fun c => c.isDigit) && fp.all (fun c => c.isDigit))
        && !(ip.isEmpty && fp.isEmpty) then
      some (signed.1 *
        ((digitsVal ip : Rat) + (digitsVal fp : Rat) / ((10 : Rat) ^ fp.length)))
    else none

/-- A cell as a number, in the sense of `pd.to_numeric(errors="coerce")`:
numeric strings (surrounding whitespace tolerated) parse, invalid strings
and missing values coerce to missing. -/
def cellToNum? : Cell → Option Rat
  | .s v => parseDec (strTrim v)
  | .i n => some n
  | .f q => some q
  | .b bv => some (if bv then 1 else 0)
  | .na => none

/-- `pd.to_numeric(df["TotalCharges"], errors="coerce")`
(preprocess.py:53-57) on one column: int64 when every cell parses to an
integer, float64 (with NaN for failures) otherwise. -/
def toNumericCol (c : Column) : Column :=
  if (c.cells.map cellToNum?).all (fun o =>
      match o with
      | some q => decide (q.den = 1)
      | none => false) then
    { name := c.name
      dtype := Dtype.int64
      cells := (c.cells.map cellToNum?).map (fun o =>
        match o with
        | some q => Cell.i q.num
        | none => Cell.na) }
  else
    { name := c.name
      dtype := Dtype.float64
      cells := (c.cells.map cellToNum?).map (fun o =>
        match o with
        | some q => Cell.f q
        | none => Cell.na) }

/-- Step 4 of `preprocess_data`: coerce TotalCharges in place when
present. -/
def coerceTotalChargesOp (df : DataFrame) : DataFrame :=
  df.map (fun c => if c.name = "TotalCharges" then toNumericCol c else c)

/-- `fillna(0).astype(int)` on one SeniorCitizen cell.  pandas
`astype(int)` truncates floats toward zero and raises on non-numeric
strings; SeniorCitizen holds only 0/1/NaN in this dataset, so the
unreachable string case is modelled as parse-or-0. -/
def snCell : Cell → Cell
  | .na => .i 0
  | .i n => .i n
  | .f q => .i (q.num / (q.den : Int))
  | .b bv => .i (if bv then 1 else 0)
  | .s v =>
    match parseDec (strTrim v) with
    | some q => .i (q.num / (q.den : Int))
    | none => .i 0

/-- Step 5 of `preprocess_data` (preprocess.py:64-69): normalize
SeniorCitizen to int64 when present. -/
def seniorOp (df : DataFrame) : DataFrame :=
  df.map (fun c =>
    if c.name = "SeniorCitizen" then
      { name := c.name, dtype := Dtype.int64, cells := c.cells.map snCell }
    else c)

/-- `select_dtypes(include=["number"])` membership. -/
def isNumericDtype : Dtype → Bool
  | .int64 => true
  | .float64 => true
  | .int64N => true
  | _ => false

/-- `fillna(0)` on one cell of a column of the given dtype. -/
def fillZeroCell (dt : Dtype) (x : Cell) : Cell :=
  if x = Cell.na then (if dt = Dtype.float64 then Cell.f 0 else Cell.i 0)
  else x

/-- Step 6 of `preprocess_data` (preprocess.py:78-79):
`df[num_cols] = df[num_cols].fillna(0)` over the numeric columns. -/
def fillNumOp (df : DataFrame) : DataFrame :=
  df.map (fun c =>
    if isNumericDtype c.dtype then
      { c with cells := c.cells.map (fillZeroCell c.dtype) }
    else c)

/-- `preprocess_data` (preprocess.py:4-84) as a pure function on the
frame value: strip column names, drop identifier columns, encode the
target, coerce TotalCharges, normalize SeniorCitizen, fill numeric
missing values with 0. -/
def preprocess_data (df : DataFrame) (target_col : String) : DataFrame :=
  fillNumOp (seniorOp (coerceTotalChargesOp
    (encodeTargetOp target_col (dropIds (stripColsOp df)))))

/-- `preprocess_data` with the aliasing of the Python variable `df` made
explicit: steps 1 and 3-6 are in-place mutations of whatever object the
local name refers to, while each `df = df.drop(columns=[col])` in step 2
rebinds the local name to a fresh object.  The result is the pair (final
state of the caller's frame, returned frame). -/
def preprocess_data_proc (df : DataFrame) (target_col : String) :
    DataFrame × DataFrame :=
  let v1 := inplaceOp stripColsOp { caller := df, loc := df, aliased := true }
  let v2 := idCols.foldl (fun v n =>
    if hasCol v.loc n then rebindOp (fun d => dropCol d n) v else v) v1
  let v3 := inplaceOp (encodeTargetOp target_col) v2
  let v4 := inplaceOp coerceTotalChargesOp v3
  let v5 := inplaceOp seniorOp v4
  let v6 := inplaceOp fillNumOp v5
  (v6.caller, v6.loc)

theorem dropFold_caller (ns : List String) (v : PyVar) :
    (ns.foldl (fun v n =>
      if hasCol v.loc n then rebindOp (fun d => dropCol d n) v else v) v).caller
    = v.caller := by
  induction ns generalizing v with
  | nil => rfl
  | cons n ns ih =>
    simp only [List.foldl_cons]
    by_cases h : hasCol v.loc n = true
    · rw [if_pos h]
      exact ih _
    · rw [if_neg h]
      exact ih v

theorem dropFold_loc (ns : List String) (v : PyVar) :
    (ns.foldl (fun v n =>
      if hasCol v.loc n then rebindOp (fun d => dropCol d n) v else v) v).loc
    = ns.foldl (fun d n => if hasCol d n then dropCol d n else d) v.loc := by
  induction ns generalizing v with
  | nil => rfl
  | cons n ns ih =>
    simp only [List.foldl_cons]
    by_cases h : hasCol v.loc n = true
    · rw [if_pos h, if_pos h]
      exact ih _
    · rw [if_neg h, if_neg h]
      exact ih v

theorem dropFold_aliased_false (ns : List String) (v : PyVar)
    (h : v.aliased = false) :
    (ns.foldl (fun v n =>
      if hasCol v.loc n then rebindOp (fun d => dropCol d n) v else v) v).aliased
    = false := by
  induction ns generalizing v with
  | nil => exact h
  | cons n ns ih =>
    simp only [List.foldl_cons]
    by_cases hc : hasCol v.loc n = true
    · rw [if_pos hc]
      exact ih _ rfl
    · rw [if_neg hc]
      exact ih v h

theorem dropFold_aliased_false_of_some (ns : List String) (v : PyVar)
    (h : ns.any (fun n => hasCol v.loc n) = true) :
    (ns.foldl (fun v n =>
      if hasCol v.loc n then rebindOp (fun d => dropCol d n) v else v) v).aliased
    = false := by
  induction ns generalizing v with
  | nil => simp at h
  | cons n ns ih =>
    simp only [List.foldl_cons]
    by_cases hc : hasCol v.loc n = true
    · rw [if_pos hc]
      exact dropFold_aliased_false ns _ rfl
    · rw [if_neg hc]
      refine ih v ?_
      simp only [List.any_cons, hc, Bool.false_or] at h
      exact h

theorem dropFold_id_of_none (ns : List String) (v : PyVar)
    (h : ns.any (fun n => hasCol v.loc n) = false) :
    (ns.foldl (fun v n =>
      if hasCol v.loc n then rebindOp (fun d => dropCol d n) v else v) v)
    = v := by
  induction ns generalizing v with
  | nil => rfl
  | cons n ns ih =>
    simp only [List.any_cons, Bool.or_eq_false_iff] at h
    simp only [List.foldl_cons]
    rw [if_neg (by simp [h.1])]
    exact ih v h.2

theorem foldDrop_pure_id (ns : List String) (d : DataFrame)
    (h : ns.any (fun n => hasCol d n) = false) :
    ns.foldl (fun d n => if hasCol d n then dropCol d n else d) d = d := by
  induction ns with
  | nil => rfl
  | cons n ns ih =>
    simp only [List.any_cons, Bool.or_eq_false_iff] at h
    simp only [List.foldl_cons]
    rw [if_neg (by simp [h.1])]
    exact ih h.2

/-- C9 (amended): `preprocess_data` always strips whitespace from the
column names of the caller's frame in place.  When none of the identifier
columns (customerID / CustomerID / customer_id) is present after
stripping, every remaining operation also mutates the caller's object,
which ends up equal to the returned frame.  But when an identifier column
is present, `df = df.drop(columns=[col])` rebinds the local name to a new
frame, so target encoding, TotalCharges coercion and numeric NA-filling
happen on that copy only: the caller's object retains merely the stripped
column names — the claim's "for every input frame" fails (see the
counterexample). -/
theorem preprocess_mutation (df : DataFrame) (t : String) :
    (preprocess_data_proc df t).2 = preprocess_data df t
    ∧ (idCols.any (fun n => hasCol (stripColsOp df) n) = true →
        (preprocess_data_proc df t).1 = stripColsOp df)
    ∧ (idCols.any (fun n => hasCol (stripColsOp df) n) = false →
        (preprocess_data_proc df t).1 = preprocess_data df t) := by
  unfold preprocess_data_proc
  dsimp only
  rw [show inplaceOp stripColsOp { caller := df, loc := df, aliased := true }
      = { caller := stripColsOp df, loc := stripColsOp df, aliased := true }
      from rfl]
  by_cases hany : idCols.any (fun n => hasCol (stripColsOp df) n) = true
  · have hal := dropFold_aliased_false_of_some idCols
      { caller := stripColsOp df, loc := stripColsOp df, aliased := true } hany
    have hca := dropFold_caller idCols
      { caller := stripColsOp df, loc := stripColsOp df, aliased := true }
    have hlo := dropFold_loc idCols
      { caller := stripColsOp df, loc := stripColsOp df, aliased := true }
    have hchain : ∀ (v : PyVar), v.aliased = false →
        inplaceOp fillNumOp (inplaceOp seniorOp (inplaceOp coerceTotalChargesOp
          (inplaceOp (encodeTargetOp t) v)))
        = { caller := v.caller
            loc := fillNumOp (seniorOp (coerceTotalChargesOp
              (encodeTargetOp t v.loc)))
            aliased := false } := by
      intro v hv
      simp [inplaceOp, hv]
    rw [hchain _ hal]
    refine ⟨?_, fun _ => hca, fun hfalse => ?_⟩
    · show fillNumOp (seniorOp (coerceTotalChargesOp (encodeTargetOp t _)))
        = preprocess_data df t
      rw [hlo]
      rfl
    · rw [hfalse] at hany
      cases hany
  · have hany' : idCols.any (fun n => hasCol (stripColsOp df) n) = false := by
      simpa using hany
    rw [dropFold_id_of_none idCols
      { caller := stripColsOp df, loc := stripColsOp df, aliased := true } hany']
    have hchainT :
        inplaceOp fillNumOp (inplaceOp seniorOp (inplaceOp coerceTotalChargesOp
          (inplaceOp (encodeTargetOp t)
            { caller := stripColsOp df, loc := stripColsOp df, aliased := true })))
        = { caller := fillNumOp (seniorOp (coerceTotalChargesOp
              (encodeTargetOp t (stripColsOp df))))
            loc := fillNumOp (seniorOp (coerceTotalChargesOp
              (encodeTargetOp t (stripColsOp df))))
            aliased := true } := by
      simp [inplaceOp]
    rw [hchainT]
    have hppd : fillNumOp (seniorOp (coerceTotalChargesOp
        (encodeTargetOp t (stripColsOp df)))) = preprocess_data df t := by
      unfold preprocess_data dropIds
      rw [foldDrop_pure_id idCols (stripColsOp df) hany']
    refine ⟨hppd, fun htrue => ?_, fun _ => hppd⟩
    rw [htrue] at hany
    cases hany rfl

/-- C9 counterexample: with an identifier column present, the caller's
frame is NOT mutated beyond the column-name strip.  After the call, the
caller's object still holds `customerID` and the raw string target, while
the returned frame has the target re-encoded to 0/1 — so "overwrites the
target column [of the argument] ... coerces ... fills missing values of
every numeric column of the argument" is false for this input. -/
theorem preprocess_mutation_counterexample :
    (preprocess_data_proc
        [⟨"customerID", Dtype.object, [Cell.s "c1"]⟩,
         ⟨"Churn", Dtype.object, [Cell.s "Yes"]⟩] "Churn").1
      = [⟨"customerID", Dtype.object, [Cell.s "c1"]⟩,
         ⟨"Churn", Dtype.object, [Cell.s "Yes"]⟩]
    ∧ (preprocess_data_proc
        [⟨"customerID", Dtype.object, [Cell.s "c1"]⟩,
         ⟨"Churn", Dtype.object, [Cell.s "Yes"]⟩] "Churn").2
      = [⟨"Churn", Dtype.int64, [Cell.i 1]⟩]
    ∧ outCol (preprocess_data_proc
        [⟨"customerID", Dtype.object, [Cell.s "c1"]⟩,
         ⟨"Churn", Dtype.object, [Cell.s "Yes"]⟩] "Churn").1 "Churn"
      ≠ some ⟨"Churn", Dtype.int64, [Cell.i 1]⟩ := by
  decide

/-- Witness for C9 (amended): with no identifier column, the caller's
frame is mutated in place all the way to the returned result. -/
theorem preprocess_mutation_witness :
    (preprocess_data_proc
        [⟨"Churn", Dtype.object, [Cell.s "Yes", Cell.s "No"]⟩] "Churn").1
      = preprocess_data
          [⟨"Churn", Dtype.object, [Cell.s "Yes", Cell.s "No"]⟩] "Churn" :=
  (preprocess_mutation
    [⟨"Churn", Dtype.object, [Cell.s "Yes", Cell.s "No"]⟩] "Churn").2.2
    (by decide)

/-! ### Inference-time encoding and reconciliation (claim C4)

The serving module `src/serving/inference.py` (imported at
src/app/main.py:30) is not present in the repository; its behaviour is
modelled from the specification. -/

/-- A raw field value in one inference record: a categorical string or a
numeric value. -/
inductive FieldVal where
  | cat (s : String) : FieldVal
  | num (n : Int) : FieldVal
deriving DecidableEq, Repr

/-- Modelled from the spec: step 2 of the reconciliation algorithm of
section 4.3 — "run the same binary-encoding and one-hot-expansion logic
over the single incoming record", with the deterministic binary mappings
of section 4.1 hardcoded identically to training and one-hot encoding
emitting the indicator column `{field}_{category}` for the record's
category, per section 4.2. -/
def encodeRecord (r : List (String × FieldVal)) : List (String × Int) :=
  r.map (fun p =>
    match p.2 with
    | .num k => (p.1, k)
    | .cat s =>
      if s = "Yes" ∨ s = "No" then (p.1, if s = "Yes" then 1 else 0)
      else if s = "Male" ∨ s = "Female" then (p.1, if s = "Male" then 1 else 0)
      else (p.1 ++ "_" ++ s, 1))

/-- The value a produced column list assigns to a name, if any. -/
def lookupVal (l : List (String × Int)) (n : String) : Option Int :=
  (l.find? (fun q => q.1 == n)).map Prod.snd

/-- Modelled from the spec: step 3 of section 4.3 — build the final
feature vector by iterating the persisted training-time column list in
order; for each name take the value produced by re-encoding when present,
otherwise substitute 0; columns not in the persisted list are dropped. -/
def reconcile (persisted : List String) (produced : List (String × Int)) :
    List (String × Int) :=
  persisted.map (fun n => (n, (lookupVal produced n).getD 0))

/-- Modelled from the spec: the feature vector served for one record. -/
def predictVector (r : List (String × FieldVal)) (persisted : List String) :
    List (String × Int) :=
  reconcile persisted (encodeRecord r)

/-- C4: for any single inference record, the final feature vector has
exactly the columns (names, order, count) of the persisted contract; any
persisted column not produced by re-encoding the record (an unseen
category, an absent field, an unseen binary value) is substituted with 0
without raising an error; and every produced column outside the persisted
list is dropped (the output holds persisted names only). -/
theorem reconcile_contract (r : List (String × FieldVal))
    (persisted : List String) :
    (predictVector r persisted).map Prod.fst = persisted
    ∧ (∀ n ∈ persisted, lookupVal (encodeRecord r) n = none →
        (n, 0) ∈ predictVector r persisted)
    ∧ (∀ q ∈ predictVector r persisted, q.1 ∈ persisted) := by
  refine ⟨?_, ?_, ?_⟩
  · unfold predictVector reconcile
    rw [List.map_map]
    have hpt : ∀ n ∈ persisted,
        (Prod.fst ∘ fun n => (n, (lookupVal (encodeRecord r) n).getD 0)) n
          = id n := fun n _ => rfl
    rw [List.map_congr_left hpt, List.map_id]
  · intro n hn hnone
    unfold predictVector reconcile
    have : (n, (lookupVal (encodeRecord r) n).getD 0) ∈
        persisted.map (fun n => (n, (lookupVal (encodeRecord r) n).getD 0)) :=
      List.mem_map_of_mem _ hn
    rwa [hnone] at this
  · intro q hq
    unfold predictVector reconcile at hq
    obtain ⟨n, hn, rfl⟩ := List.mem_map.mp hq
    exact hn

/-- Witness for C4: the Contract scenario with a category never seen at
training.  The persisted contract has the two Contract indicators; a
record with the unseen value "Weekly" yields the all-zero indicator
vector, with exactly the persisted columns. -/
theorem reconcile_contract_witness :
    ((predictVector [("Contract", FieldVal.cat "Weekly")]
        ["Contract_One year", "Contract_Two year"]).map Prod.fst
      = ["Contract_One year", "Contract_Two year"]
    ∧ (∀ n ∈ ["Contract_One year", "Contract_Two year"],
        lookupVal (encodeRecord [("Contract", FieldVal.cat "Weekly")]) n
          = none →
        (n, 0) ∈ predictVector [("Contract", FieldVal.cat "Weekly")]
          ["Contract_One year", "Contract_Two year"])
    ∧ (∀ q ∈ predictVector [("Contract", FieldVal.cat "Weekly")]
        ["Contract_One year", "Contract_Two year"],
        q.1 ∈ ["Contract_One year", "Contract_Two year"]))
    ∧ predictVector [("Contract", FieldVal.cat "Weekly")]
        ["Contract_One year", "Contract_Two year"]
      = [("Contract_One year", 0), ("Contract_Two year", 0)] :=
  ⟨reconcile_contract [("Contract", FieldVal.cat "Weekly")]
      ["Contract_One year", "Contract_Two year"],
    by decide⟩

/-! ### The serving endpoint (src/app/main.py, claims C7 and C10) -/

/-- A raw JSON-ish value in an incoming request body. -/
inductive RVal where
  | vstr (s : String) : RVal
  | vint (n : Int) : RVal
  | vfloat (q : Rat) : RVal
deriving DecidableEq, Repr

/-- The eighteen required fields of the `CustomerData` Pydantic schema
(src/app/main.py:47-69); every field is declared without a default, so
each is required. -/
def requiredFields : List String :=
  ["gender", "Partner", "Dependents", "PhoneService", "MultipleLines",
   "InternetService", "OnlineSecurity", "OnlineBackup", "DeviceProtection",
   "TechSupport", "StreamingTV", "StreamingMovies", "Contract",
   "PaperlessBilling", "PaymentMethod", "tenure", "MonthlyCharges",
   "TotalCharges"]

/-- The declared type of each `CustomerData` field accepts the value:
`str` fields take strings, `tenure : int` takes integers, the two charge
fields (`float`) take integers or floats.  (Pydantic's lenient string
coercions are not modelled; the claims only exercise presence.) -/
def fieldOk (name : String) (v : RVal) : Bool :=
  if name = "tenure" then
    match v with
    | .vint _ => true
    | _ => false
  else if name = "MonthlyCharges" ∨ name = "TotalCharges" then
    match v with
    | .vint _ => true
    | .vfloat _ => true
    | _ => false
  else
    match v with
    | .vstr _ => true
    | _ => false

/-- Modelled from the framework contract: FastAPI validates the request
body against `CustomerData` before the endpoint body runs, rejecting it
when a required field is missing or ill-typed. -/
def validateRequest (req : List (String × RVal)) :
    Except (List String) (List (String × RVal)) :=
  let missing := requiredFields.filter (fun f =>
    (req.find? (fun p => p.1 == f)).isNone)
  let badtype := requiredFields.filter (fun f =>
    match req.find? (fun p => p.1 == f) with
    | some p => !fieldOk f p.2
    | none => false)
  if missing ++ badtype = [] then .ok req else .error (missing ++ badtype)

/-- A response of the `/predict` endpoint: a 422 validation rejection
issued by the framework, or a 200 body produced by `get_prediction`. -/
inductive ApiResponse where
  | unprocessable (errs : List String) : ApiResponse
  | okPrediction (r : String) : ApiResponse
  | okError (e : String) : ApiResponse
deriving DecidableEq, Repr

/-- `get_prediction` (src/app/main.py:73-79): call `predict` inside
`try`; a normal result is returned as `{"prediction": result}` and any
raised exception is caught and returned as `{"error": str(e)}` — both as
successful responses.  The fallible inference call is modelled as a
function into `Except`. -/
def get_prediction
    (predictFn : List (String × RVal) → Except String String)
    (data : List (String × RVal)) : ApiResponse :=
  match predictFn data with
  | .ok r => .okPrediction r
  | .error e => .okError e

/-- The full `/predict` route: framework validation, then the endpoint
body. -/
def handlePredict
    (predictFn : List (String × RVal) → Except String String)
    (req : List (String × RVal)) : ApiResponse :=
  match validateRequest req with
  | .error errs => .unprocessable errs
  | .ok data => get_prediction predictFn data

/-- C7: a request in which a required raw field is entirely absent is
rejected with a schema/validation error before the prediction code runs:
the response is a 422 with a non-empty error list, and is the same
whatever the inference function would have done — the field is never
silently defaulted.  (`TechSupport` is among the required fields, as the
witness instantiates.) -/
theorem missing_field_rejected
    (req : List (String × RVal)) (f : String)
    (predictFn : List (String × RVal) → Except String String)
    (hf : f ∈ requiredFields)
    (hm : (req.find? (fun p => p.1 == f)).isNone = true) :
    (∃ errs, errs ≠ [] ∧ handlePredict predictFn req = .unprocessable errs)
    ∧ (∀ predictFn', handlePredict predictFn req
        = handlePredict predictFn' req) := by
  have hmem : f ∈ requiredFields.filter (fun f =>
      (req.find? (fun p => p.1 == f)).isNone) :=
    List.mem_filter.mpr ⟨hf, hm⟩
  have hne : requiredFields.filter (fun f =>
      (req.find? (fun p => p.1 == f)).isNone) ++ (requiredFields.filter (fun f =>
        match req.find? (fun p => p.1 == f) with
        | some p => !fieldOk f p.2
        | none => false)) ≠ [] := by
    intro h
    rw [List.append_eq_nil] at h
    rw [h.1] at hmem
    cases hmem
  constructor
  · refine ⟨_, hne, ?_⟩
    unfold handlePredict validateRequest
    rw [if_neg hne]
  · intro predictFn'
    unfold handlePredict validateRequest
    rw [if_neg hne]

/-- Witness for C7: the spec's scenario — a request omitting
`TechSupport` entirely is rejected with a validation error, independent
of the inference function (here: one that would happily answer). -/
theorem missing_field_rejected_witness :
    (∃ errs, errs ≠ [] ∧
      handlePredict (fun _ => Except.ok "No churn")
        [("gender", RVal.vstr "Male")] = ApiResponse.unprocessable errs)
    ∧ (∀ predictFn', handlePredict (fun _ => Except.ok "No churn")
        [("gender", RVal.vstr "Male")]
        = handlePredict predictFn' [("gender", RVal.vstr "Male")]) :=
  missing_field_rejected [("gender", RVal.vstr "Male")] "TechSupport"
    (fun _ => Except.ok "No churn") (by decide) (by decide)

/-- C10: for every request that passed validation, the endpoint never
propagates an exception: if the inference call raises, the body is
`{"error": ...}`, otherwise `{"prediction": ...}`, and in both cases the
response is a success, never a transport-level error. -/
theorem get_prediction_never_raises
    (predictFn : List (String × RVal) → Except String String)
    (data : List (String × RVal)) :
    ((∃ r, predictFn data = .ok r
        ∧ get_prediction predictFn data = .okPrediction r)
      ∨ (∃ e, predictFn data = .error e
        ∧ get_prediction predictFn data = .okError e))
    ∧ ∀ errs, get_prediction predictFn data ≠ .unprocessable errs := by
  unfold get_prediction
  constructor
  · cases h : predictFn data with
    | ok r => exact .inl ⟨r, rfl, rfl⟩
    | error e => exact .inr ⟨e, rfl, rfl⟩
  · intro errs
    cases h : predictFn data with
    | ok r => simp
    | error e => simp
